import Mathlib

set_option autoImplicit false

/-!
Verification of the Spendful local spend ledger core (the storage module of
the mobile app): schema migration, spend-entry CRUD, settings/subscription
reads, premium access gating, statistics aggregation, and the recurring-entry
generation engine.

Shallow embedding conventions.

* Calendar dates ("YYYY-MM-DD" strings in the source) are modeled as
  (year, month, day) triples of naturals.  The source compares date strings
  with JavaScript string comparison; for zero-padded fixed-width dates with
  four-digit years that is exactly lexicographic comparison of the triple,
  which is how `dateLe` / `dateLt` below are defined.
* JavaScript `Date` month/day overflow (e.g. `setDate(d + 7)`,
  `setMonth(m + 1)` rolling Jan 31 into Mar 2/3) is modeled by
  `normalizeDay` / `normalizeMonth`, which carry excess days into following
  months exactly the way the host date library does.
* JavaScript numbers carrying currency amounts are modeled as rationals;
  instants (`Date.now()`) as integers.
* `AsyncStorage` is modeled as a record of typed slots (`Store`).  A slot is
  a `Blob`: `missing` (key absent / `getItem` returns null), `bad` (the read
  rejects or `JSON.parse` throws), or `good v` (a well-formed blob).
* `generateUUID` (random) is modeled by a fresh-id counter `nextId`;
  `Date.now()` is the store field `now`, held fixed during one operation.
-/

structure Date where
  y : Nat
  m : Nat
  d : Nat
deriving DecidableEq, Repr

/-- Leap year test, as the Gregorian rules used by the host date library. -/
def isLeap (y : Nat) : Bool :=
  (y % 4 == 0 && y % 100 != 0) || y % 400 == 0

/-- Days in month `m` of year `y` (months out of 1..12 get the default 31;
they only arise transiently during normalization). -/
def dim (y m : Nat) : Nat :=
  if m = 2 then (if isLeap y then 29 else 28)
  else if m = 4 ∨ m = 6 ∨ m = 9 ∨ m = 11 then 30
  else 31

theorem dim_ge (y m : Nat) : 28 ≤ dim y m := by
  unfold dim; split_ifs <;> omega

theorem dim_le (y m : Nat) : dim y m ≤ 31 := by
  unfold dim; split_ifs <;> omega

/-- Carry months beyond 12 into later years, as the JS `Date` constructor. -/
def normalizeMonth (y m : Nat) : Nat × Nat :=
  if h : 12 < m then normalizeMonth (y + 1) (m - 12) else (y, m)
termination_by m
decreasing_by omega

/-- Carry days beyond the month length into the following months, as the JS
`Date` setters do (`setDate`, `setMonth` overflow). -/
def normalizeDay (y m d : Nat) : Date :=
  if h : dim (normalizeMonth y m).1 (normalizeMonth y m).2 < d then
    normalizeDay (normalizeMonth y m).1 ((normalizeMonth y m).2 + 1)
      (d - dim (normalizeMonth y m).1 (normalizeMonth y m).2)
  else
    ⟨(normalizeMonth y m).1, (normalizeMonth y m).2, d⟩
termination_by d
decreasing_by
  have := dim_ge (normalizeMonth y m).1 (normalizeMonth y m).2
  omega

/-- Strict order on dates: the embedding of `<` on "YYYY-MM-DD" strings. -/
def dateLt (a b : Date) : Prop :=
  a.y < b.y ∨ (a.y = b.y ∧ (a.m < b.m ∨ (a.m = b.m ∧ a.d < b.d)))

/-- Order on dates: the embedding of `<=` on "YYYY-MM-DD" strings. -/
def dateLe (a b : Date) : Prop :=
  a.y < b.y ∨ (a.y = b.y ∧ (a.m < b.m ∨ (a.m = b.m ∧ a.d ≤ b.d)))

instance (a b : Date) : Decidable (dateLt a b) := by unfold dateLt; infer_instance

instance (a b : Date) : Decidable (dateLe a b) := by unfold dateLe; infer_instance

theorem dateLe_refl (a : Date) : dateLe a a := by unfold dateLe; omega

theorem dateLe_trans {a b c : Date} (h1 : dateLe a b) (h2 : dateLe b c) : dateLe a c := by
  unfold dateLe at *; omega

theorem dateLt_trans {a b c : Date} (h1 : dateLt a b) (h2 : dateLt b c) : dateLt a c := by
  unfold dateLt at *; omega

theorem dateLe_of_lt {a b : Date} (h : dateLt a b) : dateLe a b := by
  unfold dateLt at h; unfold dateLe; omega

theorem dateLt_of_lt_of_le {a b c : Date} (h1 : dateLt a b) (h2 : dateLe b c) : dateLt a c := by
  unfold dateLt at *; unfold dateLe at h2; omega

theorem dateLt_of_le_of_lt {a b c : Date} (h1 : dateLe a b) (h2 : dateLt b c) : dateLt a c := by
  unfold dateLe at h1; unfold dateLt at *; omega

theorem not_dateLe_iff {a b : Date} : ¬ dateLe a b ↔ dateLt b a := by
  unfold dateLe dateLt
  constructor <;> intro h <;> omega

theorem dateLt_ne {a b : Date} (h : dateLt a b) : a ≠ b := by
  intro he; subst he; unfold dateLt at h; omega

/-- Lexicographic order on a (year, month) pair. -/
def pLe (y1 m1 y2 m2 : Nat) : Prop := y1 < y2 ∨ (y1 = y2 ∧ m1 ≤ m2)

/-- Strict lexicographic order on a (year, month) pair. -/
def pLt (y1 m1 y2 m2 : Nat) : Prop := y1 < y2 ∨ (y1 = y2 ∧ m1 < m2)

theorem normalizeMonth_ge (y m : Nat) :
    pLe y m (normalizeMonth y m).1 (normalizeMonth y m).2 := by
  induction m using Nat.strong_induction_on generalizing y with
  | _ m ih =>
    rw [normalizeMonth]
    split
    · next h =>
      have hrec := ih (m - 12) (by omega) (y + 1)
      unfold pLe at *
      omega
    · unfold pLe; omega

/-- The (year, month) pair of `normalizeDay y m d` is at least
`normalizeMonth y m`; when it is equal, the day is kept unchanged. -/
theorem normalizeDay_spec (y m d : Nat) :
    pLt (normalizeMonth y m).1 (normalizeMonth y m).2
      (normalizeDay y m d).y (normalizeDay y m d).m ∨
    ((normalizeDay y m d).y = (normalizeMonth y m).1 ∧
     (normalizeDay y m d).m = (normalizeMonth y m).2 ∧
     (normalizeDay y m d).d = d) := by
  induction d using Nat.strong_induction_on generalizing y m with
  | _ d ih =>
    rw [normalizeDay]
    split
    · next h =>
      have hd := dim_ge (normalizeMonth y m).1 (normalizeMonth y m).2
      have hrec := ih (d - dim (normalizeMonth y m).1 (normalizeMonth y m).2)
        (by omega) (normalizeMonth y m).1 ((normalizeMonth y m).2 + 1)
      have hmge := normalizeMonth_ge (normalizeMonth y m).1 ((normalizeMonth y m).2 + 1)
      left
      rcases hrec with hlt | ⟨he1, he2, _⟩
      · unfold pLt pLe at *; omega
      · rw [he1, he2]
        unfold pLe at hmge
        unfold pLt
        omega
    · right; exact ⟨rfl, rfl, rfl⟩

inductive Frequency where
  | weekly
  | biweekly
  | monthly
deriving DecidableEq, Repr

/-- `getNextOccurrenceDate` from the source: parse the date at local
midnight, advance one period (`setDate(+7)`, `setDate(+14)`, or
`setMonth(+1)`), and re-format.  Parsing a well-formed date string is the
identity on the triple; the setter overflow is `normalizeDay`. -/
def getNextOccurrenceDate (lastDate : Date) (frequency : Frequency) : Date :=
  match frequency with
  | .weekly => normalizeDay lastDate.y lastDate.m (lastDate.d + 7)
  | .biweekly => normalizeDay lastDate.y lastDate.m (lastDate.d + 14)
  | .monthly => normalizeDay lastDate.y (lastDate.m + 1) lastDate.d

theorem dateLt_of_pLt {x b : Date} (h : pLt x.y x.m b.y b.m) : dateLt x b := by
  unfold pLt at h; unfold dateLt; omega

theorem normalizeDay_gt_of_add {x : Date} {k : Nat} (hk : 0 < k) :
    dateLt x (normalizeDay x.y x.m (x.d + k)) := by
  have hs := normalizeDay_spec x.y x.m (x.d + k)
  have hm := normalizeMonth_ge x.y x.m
  rcases hs with hlt | ⟨h1, h2, h3⟩
  · refine dateLt_of_pLt ?_
    unfold pLt at *; unfold pLe at hm; omega
  · unfold pLe at hm
    unfold dateLt
    omega

/-- Advancing a date by one period strictly increases it (for every input
triple, normalized or not). -/
theorem getNext_gt (x : Date) (f : Frequency) :
    dateLt x (getNextOccurrenceDate x f) := by
  cases f with
  | weekly => exact normalizeDay_gt_of_add (by omega)
  | biweekly => exact normalizeDay_gt_of_add (by omega)
  | monthly =>
    have hs := normalizeDay_spec x.y (x.m + 1) x.d
    have hm := normalizeMonth_ge x.y (x.m + 1)
    show dateLt x (normalizeDay x.y (x.m + 1) x.d)
    rcases hs with hlt | ⟨h1, h2, _⟩
    · refine dateLt_of_pLt ?_
      unfold pLt at *; unfold pLe at hm; omega
    · refine dateLt_of_pLt ?_
      unfold pLt; unfold pLe at hm; omega

theorem getNext_ge (x : Date) (f : Frequency) :
    dateLe x (getNextOccurrenceDate x f) :=
  dateLe_of_lt (getNext_gt x f)

/-! ### Day counting (used by the access-control date difference)

`canViewDate` computes `Math.round((todayMidnight - dateMidnight) / 86400000)`.
With both dates taken at local midnight the millisecond difference is the
calendar-day distance times 86400000 (possible DST drift of under two hours
is absorbed by the rounding, as the spec notes), so local-midnight
`getTime()` is modeled as `rataDie * 86400000`. -/

/-- Days from the start of year 1 to the start of year `y` (proleptic
Gregorian). -/
def daysBeforeYear (y : Nat) : Nat :=
  365 * y + (y + 3) / 4 - (y + 99) / 100 + (y + 399) / 400

/-- Days from the start of year `y` to the start of its month `m`. -/
def daysBeforeMonth (y m : Nat) : Nat :=
  (List.range (m - 1)).foldl (fun a i => a + dim y (i + 1)) 0

/-- Day number of a date (a rata-die style count). -/
def rataDie (x : Date) : Nat :=
  daysBeforeYear x.y + daysBeforeMonth x.y x.m + x.d

def msPerDay : Int := 86400000

/-- Milliseconds of the date's local midnight (`new Date(s+"T00:00:00").getTime()`). -/
def midnightMs (x : Date) : Int := (rataDie x : Int) * msPerDay

/-! ### Data model (the exported interfaces of the storage module) -/

structure SpendEntry where
  entry_id : String
  date : Date
  amount : Rat
  category : Option String
  currency : Option String
  note : Option String
  timestamp : Int
  created_at : Int
  updated_at : Int
deriving DecidableEq, Repr

structure RecurringEntry where
  id : String
  amount : Rat
  category : Option String
  currency : Option String
  note : Option String
  frequency : Frequency
  start_date : Date
  end_date : Option Date
  last_generated_date : Option Date
  is_active : Bool
  created_at : Int
  updated_at : Int
deriving DecidableEq, Repr

structure LegacyDailyLog where
  id : String
  date : Date
  did_spend : Bool
  amount : Option Rat
  category : Option String
  note : Option String
  created_at : Int
  updated_at : Int
deriving DecidableEq, Repr

inductive ThemeMode where
  | light
  | dark
  | system
deriving DecidableEq, Repr

structure AppSettings where
  daily_reminder_time : String
  notifications_enabled : Bool
  free_history_days : Int
  tone : String
  first_launch_at : Option Int
  onboarding_completed : Bool
  show_onboarding_on_launch : Bool
  default_currency : String
  theme_mode : ThemeMode
  updated_at : Int
deriving DecidableEq, Repr

inductive Plan where
  | free
  | monthly
  | yearly
  | lifetime
deriving DecidableEq, Repr

structure Subscription where
  plan : Plan
  is_active : Bool
  expires_at : Option Int
  source : Option String
  updated_at : Int
deriving DecidableEq, Repr

/-- JavaScript `x || dflt` on a nullable string: null and the empty string
are falsy and select the default. -/
def jsStringOr (x : Option String) (dflt : String) : String :=
  match x with
  | none => dflt
  | some s => if s = "" then dflt else s

/-- One `AsyncStorage` slot: absent, unreadable/unparsable, or a value. -/
inductive Blob (α : Type) where
  | missing
  | bad
  | good (v : α)
deriving DecidableEq, Repr

/-- The `try { if (!data) return []; return JSON.parse(data); } catch { return []; }`
read pattern used on list slots. -/
def Blob.toList {α : Type} : Blob (List α) → List α
  | .good v => v
  | _ => []

/-- The full persistent state plus the ambient effects the module consumes:
the current day (`getTodayDate()`), the clock (`Date.now()`), and the
fresh-identifier source standing in for `generateUUID()`. -/
structure Store where
  migratedV2 : Bool
  legacyLogs : Blob (List LegacyDailyLog)
  spendEntries : Blob (List SpendEntry)
  appSettings : Blob AppSettings
  subscription : Blob Subscription
  recurringEntries : Blob (List RecurringEntry)
  lastRecurringCheck : Option Date
  todayD : Date
  now : Int
  nextId : Nat
deriving DecidableEq, Repr

def uuidOf (n : Nat) : String := "uuid-" ++ toString n

instance : Inhabited SpendEntry :=
  ⟨⟨"", ⟨0, 0, 0⟩, 0, none, none, none, 0, 0, 0⟩⟩

instance : Inhabited RecurringEntry :=
  ⟨⟨"", 0, none, none, none, .weekly, ⟨0, 0, 0⟩, none, none, false, 0, 0⟩⟩

/-- First-match index, the embedding of JavaScript `Array.findIndex`. -/
def findIdxO {α : Type} (p : α → Bool) : List α → Option Nat
  | [] => none
  | x :: xs => if p x then some 0 else (findIdxO p xs).map (· + 1)

/-! ### Schema migrator -/

/-- The conversion loop body of `migrateFromV1`: rows where `did_spend` is
truthy and `amount` is truthy and `> 0` are pushed. -/
def legacyQualifies (l : LegacyDailyLog) : Bool :=
  l.did_spend &&
    (match l.amount with
     | none => false
     | some a => !(a == 0) && decide (0 < a))

/-- The `SpendEntry` built from one qualifying legacy row.  (The `getD 0` on
`amount` is unreachable: `legacyQualifies` guarantees the amount is
present.) -/
def legacyConvert (l : LegacyDailyLog) : SpendEntry :=
  { entry_id := l.id
    date := l.date
    amount := l.amount.getD 0
    category := some (jsStringOr l.category "Uncategorized")
    currency := none
    note := l.note
    timestamp := l.created_at
    created_at := l.created_at
    updated_at := l.updated_at }

/-- The `for (const log of oldLogs) { if (...) newEntries.push(...) }` loop. -/
def legacyLoop (logs : List LegacyDailyLog) : List SpendEntry :=
  logs.foldl (fun acc l => if legacyQualifies l then acc ++ [legacyConvert l] else acc) []

/-- `migrateFromV1`: no-op once the marker is set; otherwise convert the
legacy daily logs (writing the entry blob only when the conversion is
non-empty) and set the marker.  A missing legacy blob converts nothing; an
unreadable one throws into the catch, which also just sets the marker. -/
def migrateFromV1 (s : Store) : Store :=
  if s.migratedV2 then s
  else
    match s.legacyLogs with
    | .missing => { s with migratedV2 := true }
    | .bad => { s with migratedV2 := true }
    | .good logs =>
      if (legacyLoop logs).length > 0 then
        { s with spendEntries := .good (legacyLoop logs), migratedV2 := true }
      else
        { s with migratedV2 := true }

/-! ### Entry store -/

/-- `getAllEntries`: run the migrator, then read the entry blob with the
safe-default pattern. -/
def getAllEntries (s : Store) : List SpendEntry × Store :=
  let s1 := migrateFromV1 s
  (s1.spendEntries.toList, s1)

/-- The entry list a read of the store observes. -/
def readEntriesList (s : Store) : List SpendEntry :=
  (migrateFromV1 s).spendEntries.toList

def saveAllEntries (s : Store) (entries : List SpendEntry) : Store :=
  { s with spendEntries := .good entries }

def addSpendEntry (s : Store) (date : Date) (amount : Rat)
    (category : Option String) (note : Option String) (currency : Option String) :
    SpendEntry × Store :=
  let s1 := migrateFromV1 s
  let entries := s1.spendEntries.toList
  let newEntry : SpendEntry :=
    { entry_id := uuidOf s1.nextId
      date := date
      amount := amount
      category := some (jsStringOr category "Uncategorized")
      currency := currency
      note := note
      timestamp := s1.now
      created_at := s1.now
      updated_at := s1.now }
  (newEntry, { saveAllEntries s1 (entries ++ [newEntry]) with nextId := s1.nextId + 1 })

def updateSpendEntry (s : Store) (entryId : String) (amount : Rat)
    (category : Option String) (note : Option String) (currency : Option String) :
    Option SpendEntry × Store :=
  let s1 := migrateFromV1 s
  let entries := s1.spendEntries.toList
  match findIdxO (fun e => decide (e.entry_id = entryId)) entries with
  | none => (none, s1)
  | some i =>
    let old := entries.getD i default
    let upd : SpendEntry :=
      { old with
        amount := amount
        category := some (jsStringOr category "Uncategorized")
        currency := currency
        note := note
        updated_at := s1.now }
    (some upd, saveAllEntries s1 (entries.set i upd))

/-- Stable descending insertion by `timestamp` (the JS stable
`sort((a, b) => b.timestamp - a.timestamp)`). -/
def insertTsDesc (x : SpendEntry) : List SpendEntry → List SpendEntry
  | [] => [x]
  | y :: ys => if x.timestamp ≤ y.timestamp then y :: insertTsDesc x ys else x :: y :: ys

def sortTsDesc (l : List SpendEntry) : List SpendEntry :=
  l.foldl (fun acc x => insertTsDesc x acc) []

def getEntriesForDate (s : Store) (date : Date) : List SpendEntry :=
  sortTsDesc ((readEntriesList s).filter (fun e => decide (e.date = date)))

def getEntriesForDateRange (s : Store) (startDate endDate : Date) : List SpendEntry :=
  sortTsDesc ((readEntriesList s).filter
    (fun e => decide (dateLe startDate e.date) && decide (dateLe e.date endDate)))

/-! ### Settings and subscription -/

def getDefaultSettings (now : Int) : AppSettings :=
  { daily_reminder_time := "20:00"
    notifications_enabled := false
    free_history_days := 30
    tone := "calm"
    first_launch_at := none
    onboarding_completed := false
    show_onboarding_on_launch := false
    default_currency := "USD"
    theme_mode := .system
    updated_at := now }

/-- `getAppSettings`: defaults when the slot is absent or unreadable; a
stored blob is a complete record, so the defaults-then-blob spread merge is
the blob itself. -/
def getAppSettings (s : Store) : AppSettings :=
  match s.appSettings with
  | .good v => v
  | _ => getDefaultSettings s.now

def getDefaultSubscription (now : Int) : Subscription :=
  { plan := .free
    is_active := false
    expires_at := none
    source := none
    updated_at := now }

def getSubscription (s : Store) : Subscription :=
  match s.subscription with
  | .good v => v
  | _ => getDefaultSubscription s.now

/-! ### Access control -/

def isPremium (subscription : Subscription) (nowMs : Int) : Bool :=
  if subscription.plan = .lifetime then true
  else if subscription.is_active && !(subscription.plan = .free : Bool) then
    match subscription.expires_at with
    | none => true
    | some e => decide (nowMs < e)
  else false

/-- `canViewDate(date, subscription, freeHistoryDays)` with the ambient
`getTodayDate()` and `Date.now()` passed explicitly.  The rounded
millisecond quotient of the two local midnights is the exact day
difference. -/
def canViewDate (date : Date) (subscription : Subscription) (freeHistoryDays : Int)
    (today : Date) (nowMs : Int) : Bool :=
  if isPremium subscription nowMs then true
  else if date = today then true
  else
    let diffTime : Int := midnightMs today - midnightMs date
    let diffDays : Int := diffTime / msPerDay
    decide (0 ≤ diffDays) && decide (diffDays ≤ freeHistoryDays)

/-! ### Statistics aggregator

`dayTotals` / `categoryTotals` are JS objects with date / category string
keys; key order is insertion order (the keys are not array indices), so they
are modeled as association lists that accumulate in place and append new
keys at the end.  `Array.prototype.sort` is stable, so the
`(a, b) => b.amount - a.amount` sort is modeled by a stable descending
insertion sort. -/

structure DayAmount where
  date : Date
  amount : Rat
deriving DecidableEq, Repr

structure CatAmount where
  category : String
  total : Rat
deriving DecidableEq, Repr

def upsertDay (l : List DayAmount) (d : Date) (a : Rat) : List DayAmount :=
  match l with
  | [] => [⟨d, a⟩]
  | x :: xs => if x.date = d then ⟨x.date, x.amount + a⟩ :: xs else x :: upsertDay xs d a

def upsertCat (l : List CatAmount) (c : String) (a : Rat) : List CatAmount :=
  match l with
  | [] => [⟨c, a⟩]
  | x :: xs => if x.category = c then ⟨x.category, x.total + a⟩ :: xs else x :: upsertCat xs c a

/-- The `dayTotals` object after the aggregation loop, in key insertion
order. -/
def dayTotalsList (entries : List SpendEntry) : List DayAmount :=
  entries.foldl (fun acc e => upsertDay acc e.date e.amount) []

def catTotalsList (entries : List SpendEntry) : List CatAmount :=
  entries.foldl (fun acc e => upsertCat acc (jsStringOr e.category "Uncategorized") e.amount) []

/-- Stable descending insertion by day amount: a later element is placed
after every existing element of greater or equal amount. -/
def insertDayDesc (x : DayAmount) : List DayAmount → List DayAmount
  | [] => [x]
  | y :: ys => if x.amount ≤ y.amount then y :: insertDayDesc x ys else x :: y :: ys

def sortDayDesc (l : List DayAmount) : List DayAmount :=
  l.foldl (fun acc x => insertDayDesc x acc) []

def insertCatDesc (x : CatAmount) : List CatAmount → List CatAmount
  | [] => [x]
  | y :: ys => if x.total ≤ y.total then y :: insertCatDesc x ys else x :: y :: ys

def sortCatDesc (l : List CatAmount) : List CatAmount :=
  l.foldl (fun acc x => insertCatDesc x acc) []

/-- Last element (`arr[arr.length - 1]` guarded by a length check). -/
def lastOpt {α : Type} : List α → Option α
  | [] => none
  | [a] => some a
  | _ :: b :: t => lastOpt (b :: t)

structure SpendingStats where
  totalSpend : Rat
  totalEntries : Nat
  spendDays : Nat
  averageSpendPerSpendDay : Rat
  topCategories : List CatAmount
  highestSpendDay : Option DayAmount
  lowestSpendDay : Option DayAmount
  totalDaysInPeriod : Nat
deriving DecidableEq, Repr

def calculateSpendingStats (entries : List SpendEntry) (totalDaysInPeriod : Nat) :
    SpendingStats :=
  match entries with
  | [] =>
    { totalSpend := 0
      totalEntries := 0
      spendDays := 0
      averageSpendPerSpendDay := 0
      topCategories := []
      highestSpendDay := none
      lowestSpendDay := none
      totalDaysInPeriod := totalDaysInPeriod }
  | _ =>
    let totalSpend := entries.foldl (fun a e => a + e.amount) 0
    let dayTotals := dayTotalsList entries
    let spendDays := dayTotals.length
    let averageSpendPerSpendDay :=
      if 0 < spendDays then totalSpend / (spendDays : Rat) else 0
    let topCategories := sortCatDesc (catTotalsList entries)
    let dayAmounts := sortDayDesc dayTotals
    { totalSpend := totalSpend
      totalEntries := entries.length
      spendDays := spendDays
      averageSpendPerSpendDay := averageSpendPerSpendDay
      topCategories := topCategories
      highestSpendDay := dayAmounts.head?
      lowestSpendDay := lastOpt dayAmounts
      totalDaysInPeriod := totalDaysInPeriod }

/-! ### Recurring entries -/

def getRecurringList (s : Store) : List RecurringEntry :=
  s.recurringEntries.toList

def addRecurringEntry (s : Store) (amount : Rat) (frequency : Frequency)
    (startDate : Date) (category : Option String) (currency : Option String)
    (note : Option String) (endDate : Option Date) : RecurringEntry × Store :=
  let entries := getRecurringList s
  let newEntry : RecurringEntry :=
    { id := uuidOf s.nextId
      amount := amount
      category := some (jsStringOr category "Uncategorized")
      currency := currency
      note := note
      frequency := frequency
      start_date := startDate
      end_date := endDate
      last_generated_date := none
      is_active := true
      created_at := s.now
      updated_at := s.now }
  (newEntry,
    { s with recurringEntries := .good (entries ++ [newEntry]), nextId := s.nextId + 1 })

/-- A `Partial<Omit<RecurringEntry, "id" | "created_at" | "updated_at">>`:
each field is present (`some`) or left out (`none`). -/
structure RecurringPatch where
  amount : Option Rat := none
  category : Option (Option String) := none
  currency : Option (Option String) := none
  note : Option (Option String) := none
  frequency : Option Frequency := none
  start_date : Option Date := none
  end_date : Option (Option Date) := none
  last_generated_date : Option (Option Date) := none
  is_active : Option Bool := none
deriving DecidableEq, Repr

/-- The `{ ...entries[index], ...updates, updated_at: Date.now() }` spread. -/
def applyPatch (t : RecurringEntry) (p : RecurringPatch) (now : Int) : RecurringEntry :=
  { id := t.id
    amount := p.amount.getD t.amount
    category := p.category.getD t.category
    currency := p.currency.getD t.currency
    note := p.note.getD t.note
    frequency := p.frequency.getD t.frequency
    start_date := p.start_date.getD t.start_date
    end_date := p.end_date.getD t.end_date
    last_generated_date := p.last_generated_date.getD t.last_generated_date
    is_active := p.is_active.getD t.is_active
    created_at := t.created_at
    updated_at := now }

def updateRecurringEntry (s : Store) (id : String) (updates : RecurringPatch) :
    Option RecurringEntry × Store :=
  let entries := getRecurringList s
  match findIdxO (fun e => decide (e.id = id)) entries with
  | none => (none, s)
  | some i =>
    let upd := applyPatch (entries.getD i default) updates s.now
    (some upd, { s with recurringEntries := .good (entries.set i upd) })

/-- The note attached to a generated occurrence:
`recurring.note ? "[Recurring] " + note : "[Recurring]"`. -/
def recNote (note : Option String) : String :=
  match note with
  | none => "[Recurring]"
  | some n => if n = "" then "[Recurring]" else "[Recurring] " ++ n

/-- `recurring.end_date && nextDate > recurring.end_date`. -/
def pastEnd (endDate : Option Date) (next : Date) : Bool :=
  match endDate with
  | none => false
  | some e => decide (dateLt e next)

/-- The inner `while (nextDate <= today)` catch-up loop for one template.
The loop in the source terminates because each period-advance strictly
increases the date (`getNext_gt`); here it is driven by a fuel counter that
provably dominates the number of iterations for every store the app can
reach (after one advance the cursor is normalized, so at most
`416*today.y + 32*today.m + today.d + 1` further iterations can satisfy
`nextDate <= today`). -/
def genLoop (r : RecurringEntry) (today : Date) :
    Nat → Store → Date → Nat → Store × Nat
  | 0, s, _, generated => (s, generated)
  | fuel + 1, s, next, generated =>
    if dateLe next today then
      if pastEnd r.end_date next then (s, generated)
      else
        genLoop r today fuel
          ((updateRecurringEntry
              ((addSpendEntry s next r.amount r.category
                  (some (recNote r.note)) r.currency).2)
              r.id { last_generated_date := some (some next) }).2)
          (getNextOccurrenceDate next r.frequency) (generated + 1)
    else (s, generated)

/-- Fuel bound for `genLoop`; see the comment there. -/
def genFuel (today : Date) : Nat :=
  416 * today.y + 32 * today.m + today.d + 1000

/-- `recurring.end_date && recurring.end_date < today`. -/
def endedBefore (endDate : Option Date) (today : Date) : Bool :=
  match endDate with
  | none => false
  | some e => decide (dateLt e today)

/-- The initial loop cursor for one template: the period after
`last_generated_date` when it is set, else `start_date` itself. -/
def firstCandidate (r : RecurringEntry) : Date :=
  match r.last_generated_date with
  | some lg => getNextOccurrenceDate lg r.frequency
  | none => r.start_date

/-- The `for (const recurring of recurringEntries)` loop of
`generateRecurringEntriesForToday`, iterating over the template list read
once at the start while the store evolves underneath. -/
def genAll (today : Date) : List RecurringEntry → Store → Nat → Store × Nat
  | [], s, generated => (s, generated)
  | r :: rs, s, generated =>
    if !r.is_active then genAll today rs s generated
    else if endedBefore r.end_date today then genAll today rs s generated
    else if decide (dateLt today r.start_date) then genAll today rs s generated
    else
      genAll today rs
        (genLoop r today (genFuel today) s (firstCandidate r) generated).1
        (genLoop r today (genFuel today) s (firstCandidate r) generated).2

def generateRecurringEntriesForToday (s : Store) : Store × Nat :=
  if s.lastRecurringCheck = some s.todayD then (s, 0)
  else
    ({ (genAll s.todayD (getRecurringList s) s 0).1 with
         lastRecurringCheck := some s.todayD },
     (genAll s.todayD (getRecurringList s) s 0).2)

/-! ### Basic facts about the migrator -/

theorem migrate_migratedV2 (s : Store) : (migrateFromV1 s).migratedV2 = true := by
  unfold migrateFromV1
  split
  · next h => simpa using h
  · split
    · rfl
    · rfl
    · split <;> rfl

theorem migrate_of_migrated {s : Store} (h : s.migratedV2 = true) :
    migrateFromV1 s = s := by
  unfold migrateFromV1
  rw [if_pos (by simpa using h)]

/-- The migrator touches only the entry blob and the marker. -/
theorem migrate_frame (s : Store) :
    (migrateFromV1 s).legacyLogs = s.legacyLogs ∧
    (migrateFromV1 s).appSettings = s.appSettings ∧
    (migrateFromV1 s).subscription = s.subscription ∧
    (migrateFromV1 s).recurringEntries = s.recurringEntries ∧
    (migrateFromV1 s).lastRecurringCheck = s.lastRecurringCheck ∧
    (migrateFromV1 s).todayD = s.todayD ∧
    (migrateFromV1 s).now = s.now ∧
    (migrateFromV1 s).nextId = s.nextId := by
  unfold migrateFromV1
  split
  · exact ⟨rfl, rfl, rfl, rfl, rfl, rfl, rfl, rfl⟩
  · split
    · exact ⟨rfl, rfl, rfl, rfl, rfl, rfl, rfl, rfl⟩
    · exact ⟨rfl, rfl, rfl, rfl, rfl, rfl, rfl, rfl⟩
    · split <;> exact ⟨rfl, rfl, rfl, rfl, rfl, rfl, rfl, rfl⟩

theorem migrate_idem (s : Store) :
    migrateFromV1 (migrateFromV1 s) = migrateFromV1 s :=
  migrate_of_migrated (migrate_migratedV2 s)

theorem readEntriesList_migrate (s : Store) :
    readEntriesList (migrateFromV1 s) = readEntriesList s := by
  unfold readEntriesList
  rw [migrate_idem]

/-- What the migrator leaves in the entry blob, as a function of the three
slots it reads. -/
def migratedBlob (migrated : Bool) (legacy : Blob (List LegacyDailyLog))
    (cur : Blob (List SpendEntry)) : Blob (List SpendEntry) :=
  if migrated then cur
  else
    match legacy with
    | .good logs => if (legacyLoop logs).length > 0 then .good (legacyLoop logs) else cur
    | _ => cur

theorem migrate_spendEntries (s : Store) :
    (migrateFromV1 s).spendEntries =
      migratedBlob s.migratedV2 s.legacyLogs s.spendEntries := by
  unfold migrateFromV1 migratedBlob
  split
  · rfl
  · split
    · next x heq => rw [heq]
    · next x heq => rw [heq]
    · next logs heq =>
      rw [heq]
      split <;> next h => simp [h]

/-- `readEntriesList` depends only on the marker, the legacy blob and the
entry blob. -/
theorem readEntriesList_congr {s t : Store}
    (h1 : s.migratedV2 = t.migratedV2) (h2 : s.legacyLogs = t.legacyLogs)
    (h3 : s.spendEntries = t.spendEntries) :
    readEntriesList s = readEntriesList t := by
  unfold readEntriesList
  rw [migrate_spendEntries, migrate_spendEntries, h1, h2, h3]

/-! ### Claim C5 -/

/-- Claim C5: running the migrator twice produces the same final state as
running it once.  After any completed call of `migrateFromV1` — whether the
conversion succeeded, found nothing, or threw (`Blob.bad`) — the migration
marker is set, and a subsequent call leaves the store exactly as it was. -/
theorem migration_idempotent (s : Store) :
    (migrateFromV1 s).migratedV2 = true ∧
    migrateFromV1 (migrateFromV1 s) = migrateFromV1 s :=
  ⟨migrate_migratedV2 s, migrate_idem s⟩

/-! ### Claim C9 -/

/-- Claim C9: when the underlying key-value read fails or the stored blob is
unparsable (`Blob.bad`), or the key is absent (`Blob.missing`), reads return
safe defaults: `getAllEntries` (hence `getEntriesForDate` and
`getEntriesForDateRange`) returns the empty list, `getAppSettings` the
default settings, and `getSubscription` the default free-tier
subscription.  The entry-blob condition is stated after the migrator has
run, since `getAllEntries` migrates before reading. -/
theorem reads_default_on_failure (s : Store) (d d1 d2 : Date) :
    (((migrateFromV1 s).spendEntries = Blob.missing ∨
      (migrateFromV1 s).spendEntries = Blob.bad) →
      (getAllEntries s).1 = [] ∧ getEntriesForDate s d = [] ∧
      getEntriesForDateRange s d1 d2 = []) ∧
    ((s.appSettings = Blob.missing ∨ s.appSettings = Blob.bad) →
      getAppSettings s = getDefaultSettings s.now) ∧
    ((s.subscription = Blob.missing ∨ s.subscription = Blob.bad) →
      getSubscription s = getDefaultSubscription s.now) := by
  refine ⟨fun h => ?_, fun h => ?_, fun h => ?_⟩
  · have hread : readEntriesList s = [] := by
      unfold readEntriesList
      rcases h with h | h <;> rw [h] <;> rfl
    have h1 : (getAllEntries s).1 = [] := by
      show readEntriesList s = []
      exact hread
    refine ⟨h1, ?_, ?_⟩
    · unfold getEntriesForDate
      rw [hread]
      rfl
    · unfold getEntriesForDateRange
      rw [hread]
      rfl
  · unfold getAppSettings
    rcases h with h | h <;> rw [h]
  · unfold getSubscription
    rcases h with h | h <;> rw [h]

/-- Concrete store used by several witnesses below. -/
def wBase : Store :=
  { migratedV2 := true
    legacyLogs := .missing
    spendEntries := .good []
    appSettings := .missing
    subscription := .missing
    recurringEntries := .good []
    lastRecurringCheck := none
    todayD := ⟨2025, 6, 15⟩
    now := 1750000000000
    nextId := 0 }

def wBadStore : Store :=
  { wBase with spendEntries := .bad, appSettings := .bad, subscription := .bad }

theorem reads_default_on_failure_witness :
    ((getAllEntries wBadStore).1 = [] ∧
      getEntriesForDate wBadStore ⟨2025, 6, 1⟩ = [] ∧
      getEntriesForDateRange wBadStore ⟨2025, 6, 1⟩ ⟨2025, 6, 15⟩ = []) ∧
    getAppSettings wBadStore = getDefaultSettings wBadStore.now ∧
    getSubscription wBadStore = getDefaultSubscription wBadStore.now :=
  ⟨(reads_default_on_failure wBadStore ⟨2025, 6, 1⟩ ⟨2025, 6, 1⟩ ⟨2025, 6, 15⟩).1
      (Or.inr (by decide)),
   (reads_default_on_failure wBadStore ⟨2025, 6, 1⟩ ⟨2025, 6, 1⟩ ⟨2025, 6, 15⟩).2.1
      (Or.inr rfl),
   (reads_default_on_failure wBadStore ⟨2025, 6, 1⟩ ⟨2025, 6, 1⟩ ⟨2025, 6, 15⟩).2.2
      (Or.inr rfl)⟩

/-! ### Claim C2 -/

/-- Claim C2: after `generateRecurringEntriesForToday` completes on a day,
the last-check marker equals that day; and whenever the marker already
equals the current day, a call returns 0 and leaves the entire store
(spend entries and every recurring template included) unchanged, so
generation never runs twice in one calendar day. -/
theorem generate_once_per_day (s s2 : Store) :
    (generateRecurringEntriesForToday s).1.lastRecurringCheck = some s.todayD ∧
    (s2.lastRecurringCheck = some s2.todayD →
      generateRecurringEntriesForToday s2 = (s2, 0)) := by
  constructor
  · unfold generateRecurringEntriesForToday
    split
    · next h => exact h
    · rfl
  · intro h
    unfold generateRecurringEntriesForToday
    rw [if_pos h]

def wMarkedStore : Store := { wBase with lastRecurringCheck := some wBase.todayD }

theorem generate_once_per_day_witness :
    (generateRecurringEntriesForToday wMarkedStore).1.lastRecurringCheck =
      some wMarkedStore.todayD ∧
    generateRecurringEntriesForToday wMarkedStore = (wMarkedStore, 0) :=
  ⟨(generate_once_per_day wMarkedStore wMarkedStore).1,
   (generate_once_per_day wMarkedStore wMarkedStore).2 rfl⟩

/-! ### Claim C6 -/

/-- Claim C6: for a non-premium subscription and `freeHistoryDays = n ≥ 0`,
the date exactly `n` days before today is viewable and the date exactly
`n + 1` days before today is not.  "k days before today" is expressed by the
day-count difference `rataDie today - rataDie date = k`. -/
theorem free_window_boundary (subscription : Subscription) (nowMs : Int) (n : Nat)
    (today dIn dOut : Date)
    (hprem : isPremium subscription nowMs = false)
    (hIn : (rataDie today : Int) - (rataDie dIn : Int) = (n : Int))
    (hOut : (rataDie today : Int) - (rataDie dOut : Int) = (n : Int) + 1) :
    canViewDate dIn subscription (n : Int) today nowMs = true ∧
    canViewDate dOut subscription (n : Int) today nowMs = false := by
  have hms : msPerDay ≠ 0 := by decide
  have hdiv : ∀ x : Date, (midnightMs today - midnightMs x) / msPerDay =
      (rataDie today : Int) - (rataDie x : Int) := by
    intro x
    unfold midnightMs
    rw [← Int.sub_mul]
    exact Int.mul_ediv_cancel _ hms
  constructor
  · unfold canViewDate
    rw [hprem]
    simp only [Bool.false_eq_true, if_false]
    by_cases heq : dIn = today
    · rw [if_pos heq]
    · rw [if_neg heq]
      rw [hdiv, hIn]
      simp
  · unfold canViewDate
    rw [hprem]
    simp only [Bool.false_eq_true, if_false]
    have heq : dOut ≠ today := by
      intro he
      rw [he] at hOut
      omega
    rw [if_neg heq]
    rw [hdiv, hOut]
    have : ¬ ((n : Int) + 1 ≤ (n : Int)) := by omega
    simp [this]

/-! ### Claim C3 -/

/-- Descending sortedness by amount. -/
def SortedDA (l : List DayAmount) : Prop :=
  List.Pairwise (fun a b => b.amount ≤ a.amount) l

theorem insertDayDesc_ne_nil (x : DayAmount) (l : List DayAmount) :
    insertDayDesc x l ≠ [] := by
  cases l with
  | nil => simp [insertDayDesc]
  | cons y ys =>
    unfold insertDayDesc
    split <;> simp

theorem mem_insertDayDesc {a x : DayAmount} {l : List DayAmount} :
    a ∈ insertDayDesc x l ↔ a = x ∨ a ∈ l := by
  induction l with
  | nil => simp [insertDayDesc]
  | cons y ys ih =>
    unfold insertDayDesc
    split
    · simp only [List.mem_cons, ih]
      try tauto
    · simp only [List.mem_cons]
      try tauto

theorem sorted_insertDayDesc {x : DayAmount} {l : List DayAmount} (h : SortedDA l) :
    SortedDA (insertDayDesc x l) := by
  induction l with
  | nil => simp [insertDayDesc, SortedDA]
  | cons y ys ih =>
    obtain ⟨hy, hys⟩ := List.pairwise_cons.mp h
    unfold insertDayDesc
    split
    · next hle =>
      refine List.pairwise_cons.mpr ⟨fun b hb => ?_, ih hys⟩
      rcases mem_insertDayDesc.mp hb with hbx | hbm
      · rw [hbx]; exact hle
      · exact hy b hbm
    · next hgt =>
      refine List.pairwise_cons.mpr ⟨fun b hb => ?_, List.pairwise_cons.mpr ⟨hy, hys⟩⟩
      rcases List.mem_cons.mp hb with hby | hbm
      · rw [hby]; exact le_of_lt (lt_of_not_le hgt)
      · exact le_trans (hy b hbm) (le_of_lt (lt_of_not_le hgt))

theorem head?_insertDayDesc (x : DayAmount) (l : List DayAmount) :
    (insertDayDesc x l).head? =
      some (match l.head? with
            | none => x
            | some y => if x.amount ≤ y.amount then y else x) := by
  cases l with
  | nil => rfl
  | cons y ys =>
    unfold insertDayDesc
    split <;> next h => simp [h]

theorem lastOpt_cons_cons {α : Type} (a b : α) (l : List α) :
    lastOpt (a :: b :: l) = lastOpt (b :: l) := rfl

theorem lastOpt_mem {α : Type} : ∀ {l : List α} {z : α}, lastOpt l = some z → z ∈ l := by
  intro l
  induction l with
  | nil => intro z hz; simp [lastOpt] at hz
  | cons u us ih =>
    intro z hz
    cases us with
    | nil =>
      simp [lastOpt] at hz
      simp [hz]
    | cons v vs =>
      rw [lastOpt_cons_cons] at hz
      exact List.mem_cons_of_mem u (ih hz)

theorem lastOpt_isSome {α : Type} (a : α) (l : List α) :
    ∃ z, lastOpt (a :: l) = some z := by
  induction l generalizing a with
  | nil => exact ⟨a, rfl⟩
  | cons b bs ih =>
    rw [lastOpt_cons_cons]
    exact ih b

/-- In a descending-sorted list the last element is minimal, so insertion
replaces the last element exactly when the new amount is at most the old
last amount. -/
theorem lastOpt_insertDayDesc {l : List DayAmount} (x : DayAmount) (h : SortedDA l) :
    lastOpt (insertDayDesc x l) =
      some (match lastOpt l with
            | none => x
            | some z => if x.amount ≤ z.amount then x else z) := by
  induction l generalizing x with
  | nil => rfl
  | cons y ys ih =>
    obtain ⟨hy, hys⟩ := List.pairwise_cons.mp h
    unfold insertDayDesc
    split
    · next hle =>
      cases ys with
      | nil => simp [insertDayDesc, lastOpt, hle]
      | cons w ws =>
        have hrec := ih x hys
        obtain ⟨a, as, ha⟩ : ∃ a as, insertDayDesc x (w :: ws) = a :: as := by
          cases hi : insertDayDesc x (w :: ws) with
          | nil => exact absurd hi (insertDayDesc_ne_nil x (w :: ws))
          | cons a as => exact ⟨a, as, rfl⟩
        rw [ha] at hrec
        rw [ha, lastOpt_cons_cons, hrec]
        rfl
    · next hgt =>
      cases ys with
      | nil => simp [lastOpt, hgt]
      | cons w ws =>
        rw [lastOpt_cons_cons]
        obtain ⟨z, hz⟩ := lastOpt_isSome y (w :: ws)
        have hzy : z.amount ≤ y.amount := by
          rcases List.mem_cons.mp (lastOpt_mem hz) with h1 | h2
          · rw [h1]
          · exact hy z h2
        have hzx : ¬ x.amount ≤ z.amount :=
          not_le.mpr (lt_of_le_of_lt hzy (lt_of_not_le hgt))
        rw [hz]
        simp [hzx]

/-- First-encountered maximal day: the best is replaced only by a strictly
greater amount. -/
def firstMaxFrom (o : Option DayAmount) (l : List DayAmount) : Option DayAmount :=
  l.foldl (fun b y =>
    match b with
    | none => some y
    | some b0 => some (if b0.amount < y.amount then y else b0)) o

/-- Last-encountered minimal day: the best is replaced by any
less-or-equal amount. -/
def lastMinFrom (o : Option DayAmount) (l : List DayAmount) : Option DayAmount :=
  l.foldl (fun b y =>
    match b with
    | none => some y
    | some b0 => some (if y.amount ≤ b0.amount then y else b0)) o

/-- The stable descending sort fold: its head is the first-encountered
maximum and its last element is the last-encountered minimum. -/
theorem sortFold_spec (l : List DayAmount) :
    ∀ acc : List DayAmount, SortedDA acc →
      SortedDA (l.foldl (fun a x => insertDayDesc x a) acc) ∧
      (l.foldl (fun a x => insertDayDesc x a) acc).head? = firstMaxFrom acc.head? l ∧
      lastOpt (l.foldl (fun a x => insertDayDesc x a) acc) = lastMinFrom (lastOpt acc) l := by
  induction l with
  | nil => exact fun acc h => ⟨h, rfl, rfl⟩
  | cons x xs ih =>
    intro acc hacc
    have hstep := ih (insertDayDesc x acc) (sorted_insertDayDesc hacc)
    refine ⟨hstep.1, ?_, ?_⟩
    · rw [List.foldl_cons, hstep.2.1, head?_insertDayDesc]
      cases acc.head? with
      | none => rfl
      | some y =>
        show firstMaxFrom (some (if x.amount ≤ y.amount then y else x)) xs =
          firstMaxFrom (some (if y.amount < x.amount then x else y)) xs
        have hif : (if x.amount ≤ y.amount then y else x) =
            (if y.amount < x.amount then x else y) := by
          rcases le_or_lt x.amount y.amount with h | h
          · rw [if_pos h, if_neg (not_lt.mpr h)]
          · rw [if_neg (not_le.mpr h), if_pos h]
        rw [hif]
    · rw [List.foldl_cons, hstep.2.2, lastOpt_insertDayDesc x hacc]
      cases lastOpt acc with
      | none => rfl
      | some z => rfl

/-- First-encountered maximal day of the per-day totals. -/
def firstMaxDay (l : List DayAmount) : Option DayAmount := firstMaxFrom none l

/-- Last-encountered minimal day of the per-day totals. -/
def lastMinDay (l : List DayAmount) : Option DayAmount := lastMinFrom none l

/-- Claim C3, corrected.  For every non-empty entry list,
`calculateSpendingStats` returns as `highestSpendDay` the day with maximal
per-day total, ties broken by taking the FIRST in iteration
(first-encountered) order — but as `lowestSpendDay` the day with minimal
per-day total with ties broken by taking the LAST in iteration order: the
stable descending sort leaves the last-encountered minimum at the end of the
array, and the code takes `dayAmounts[dayAmounts.length - 1]`. -/
theorem stats_extremes_tie_break (entries : List SpendEntry) (n : Nat)
    (hne : entries ≠ []) :
    (calculateSpendingStats entries n).highestSpendDay =
      firstMaxDay (dayTotalsList entries) ∧
    (calculateSpendingStats entries n).lowestSpendDay =
      lastMinDay (dayTotalsList entries) := by
  have hfold := sortFold_spec (dayTotalsList entries) [] (by simp [SortedDA])
  cases entries with
  | nil => exact absurd rfl hne
  | cons e es =>
    show ((sortDayDesc (dayTotalsList (e :: es))).head? = _) ∧
      (lastOpt (sortDayDesc (dayTotalsList (e :: es))) = _)
    unfold sortDayDesc firstMaxDay lastMinDay
    exact ⟨hfold.2.1, hfold.2.2⟩

def cxEntryA : SpendEntry :=
  { entry_id := "a", date := ⟨2024, 1, 1⟩, amount := 5, category := some "Groceries",
    currency := none, note := none, timestamp := 1, created_at := 1, updated_at := 1 }

def cxEntryB : SpendEntry :=
  { entry_id := "b", date := ⟨2024, 1, 2⟩, amount := 5, category := some "Dining",
    currency := none, note := none, timestamp := 2, created_at := 2, updated_at := 2 }

/-- Counterexample to claim C3 as stated: two days tie at total 5, the first
in iteration order being 2024-01-01, yet `lowestSpendDay` is 2024-01-02 —
the tie at the minimum is broken by the LAST day in iteration order, not the
first. -/
theorem stats_extremes_tie_break_witness :
    (calculateSpendingStats [cxEntryA, cxEntryB] 7).highestSpendDay =
      firstMaxDay (dayTotalsList [cxEntryA, cxEntryB]) ∧
    (calculateSpendingStats [cxEntryA, cxEntryB] 7).lowestSpendDay =
      lastMinDay (dayTotalsList [cxEntryA, cxEntryB]) :=
  stats_extremes_tie_break [cxEntryA, cxEntryB] 7 (List.cons_ne_nil _ _)

theorem lowest_tie_last_counterexample :
    dayTotalsList [cxEntryA, cxEntryB] =
      [⟨⟨2024, 1, 1⟩, 5⟩, ⟨⟨2024, 1, 2⟩, 5⟩] ∧
    (calculateSpendingStats [cxEntryA, cxEntryB] 7).lowestSpendDay =
      some ⟨⟨2024, 1, 2⟩, 5⟩ ∧
    (⟨⟨2024, 1, 2⟩, 5⟩ : DayAmount) ≠ ⟨⟨2024, 1, 1⟩, 5⟩ := by
  refine ⟨by decide, by decide, by decide⟩

/-! ### Claim C4 -/

/-- The conversion loop is filter-then-map. -/
theorem legacyLoop_eq (logs : List LegacyDailyLog) :
    legacyLoop logs = (logs.filter legacyQualifies).map legacyConvert := by
  unfold legacyLoop
  suffices h : ∀ acc : List SpendEntry,
      logs.foldl (fun acc l => if legacyQualifies l then acc ++ [legacyConvert l] else acc) acc =
        acc ++ (logs.filter legacyQualifies).map legacyConvert by
    simpa using h []
  induction logs with
  | nil => intro acc; simp
  | cons x xs ih =>
    intro acc
    by_cases hx : legacyQualifies x
    · simp [hx, ih, List.filter_cons]
    · simp [hx, ih, List.filter_cons]

/-- Claim C4: a first run of the migrator (marker unset, legacy blob
readable) converts exactly the legacy rows with truthy `did_spend` and a
truthy positive amount; each yields one `SpendEntry` preserving the row's
identifier, amount, category (defaulting to "Uncategorized" when absent),
note and created/updated timestamps; all other rows yield nothing.  When no
row qualifies the entry blob is left untouched. -/
theorem migrate_first_run (s : Store) (logs : List LegacyDailyLog)
    (h1 : s.migratedV2 = false) (h2 : s.legacyLogs = Blob.good logs) :
    (migrateFromV1 s).migratedV2 = true ∧
    (logs.filter legacyQualifies ≠ [] →
      (migrateFromV1 s).spendEntries = Blob.good
        ((logs.filter (fun l => l.did_spend &&
            (match l.amount with
             | none => false
             | some a => !(a == 0) && decide (0 < a)))).map
          (fun l =>
            { entry_id := l.id
              date := l.date
              amount := l.amount.getD 0
              category := some (jsStringOr l.category "Uncategorized")
              currency := none
              note := l.note
              timestamp := l.created_at
              created_at := l.created_at
              updated_at := l.updated_at }))) ∧
    (logs.filter legacyQualifies = [] →
      (migrateFromV1 s).spendEntries = s.spendEntries) := by
  refine ⟨migrate_migratedV2 s, fun hne => ?_, fun he => ?_⟩
  · rw [migrate_spendEntries]
    unfold migratedBlob
    rw [h1, h2]
    simp only [Bool.false_eq_true, if_false]
    rw [legacyLoop_eq]
    have hpos : ((logs.filter legacyQualifies).map legacyConvert).length > 0 := by
      rw [List.length_map]
      exact List.length_pos.mpr hne
    rw [if_pos hpos]
    rfl
  · rw [migrate_spendEntries]
    unfold migratedBlob
    rw [h1, h2]
    simp only [Bool.false_eq_true, if_false]
    rw [legacyLoop_eq, he]
    simp

/-- Legacy fixture: one qualifying row, one no-spend row, one zero-amount
row, one missing-amount row, one negative-amount row. -/
def wLogs : List LegacyDailyLog :=
  [ { id := "log-1", date := ⟨2024, 11, 3⟩, did_spend := true, amount := some 12,
      category := some "Groceries", note := some "milk", created_at := 100, updated_at := 200 },
    { id := "log-2", date := ⟨2024, 11, 4⟩, did_spend := false, amount := some 9,
      category := none, note := none, created_at := 101, updated_at := 201 },
    { id := "log-3", date := ⟨2024, 11, 5⟩, did_spend := true, amount := some 0,
      category := none, note := none, created_at := 102, updated_at := 202 },
    { id := "log-4", date := ⟨2024, 11, 6⟩, did_spend := true, amount := none,
      category := none, note := none, created_at := 103, updated_at := 203 },
    { id := "log-5", date := ⟨2024, 11, 7⟩, did_spend := true, amount := some (-4),
      category := none, note := none, created_at := 104, updated_at := 204 } ]

def wLegacyStore : Store :=
  { wBase with migratedV2 := false, legacyLogs := .good wLogs, spendEntries := .missing }

theorem migrate_first_run_witness :
    (migrateFromV1 wLegacyStore).migratedV2 = true ∧
    (migrateFromV1 wLegacyStore).spendEntries = Blob.good
      ((wLogs.filter (fun l => l.did_spend &&
          (match l.amount with
           | none => false
           | some a => !(a == 0) && decide (0 < a)))).map
        (fun l =>
          { entry_id := l.id
            date := l.date
            amount := l.amount.getD 0
            category := some (jsStringOr l.category "Uncategorized")
            currency := none
            note := l.note
            timestamp := l.created_at
            created_at := l.created_at
            updated_at := l.updated_at })) :=
  ⟨(migrate_first_run wLegacyStore wLogs rfl rfl).1,
   (migrate_first_run wLegacyStore wLogs rfl rfl).2.1 (by decide)⟩

/-! ### Claim C8 -/

/-- Claim C8: `updateSpendEntry` on an existing entry replaces only the
mutable fields (`amount`, `category`, `currency`, `note`, `updated_at`) of
the found entry, keeps its `entry_id`, `date`, `timestamp` and `created_at`,
and leaves every other entry of the collection unchanged. -/
theorem update_entry_frame (s : Store) (entryId : String) (amount : Rat)
    (category note currency : Option String) (i : Nat)
    (hfind : findIdxO (fun e => decide (e.entry_id = entryId)) (readEntriesList s) = some i) :
    (updateSpendEntry s entryId amount category note currency).1 =
      some { (readEntriesList s).getD i default with
               amount := amount
               category := some (jsStringOr category "Uncategorized")
               currency := currency
               note := note
               updated_at := s.now } ∧
    (updateSpendEntry s entryId amount category note currency).2.spendEntries =
      Blob.good ((readEntriesList s).set i
        { (readEntriesList s).getD i default with
            amount := amount
            category := some (jsStringOr category "Uncategorized")
            currency := currency
            note := note
            updated_at := s.now }) ∧
    ({ (readEntriesList s).getD i default with
         amount := amount
         category := some (jsStringOr category "Uncategorized")
         currency := currency
         note := note
         updated_at := s.now } : SpendEntry).entry_id =
      ((readEntriesList s).getD i default).entry_id ∧
    ({ (readEntriesList s).getD i default with
         amount := amount
         category := some (jsStringOr category "Uncategorized")
         currency := currency
         note := note
         updated_at := s.now } : SpendEntry).date =
      ((readEntriesList s).getD i default).date ∧
    ({ (readEntriesList s).getD i default with
         amount := amount
         category := some (jsStringOr category "Uncategorized")
         currency := currency
         note := note
         updated_at := s.now } : SpendEntry).timestamp =
      ((readEntriesList s).getD i default).timestamp ∧
    ({ (readEntriesList s).getD i default with
         amount := amount
         category := some (jsStringOr category "Uncategorized")
         currency := currency
         note := note
         updated_at := s.now } : SpendEntry).created_at =
      ((readEntriesList s).getD i default).created_at ∧
    (∀ j, j ≠ i → ∀ upd : SpendEntry,
      ((readEntriesList s).set i upd)[j]? = (readEntriesList s)[j]?) := by
  have hnow : (migrateFromV1 s).now = s.now := (migrate_frame s).2.2.2.2.2.2.1
  unfold readEntriesList at hfind ⊢
  simp only [updateSpendEntry]
  rw [hfind]
  rw [hnow]
  refine ⟨rfl, rfl, ?_, ?_, ?_, ?_, fun j hj upd => List.getElem?_set_ne (by omega)⟩ <;> trivial

def wEntry : SpendEntry :=
  { entry_id := "e-1", date := ⟨2025, 6, 10⟩, amount := 7, category := some "Dining",
    currency := some "USD", note := some "lunch", timestamp := 11, created_at := 11,
    updated_at := 11 }

def wEntry2 : SpendEntry :=
  { entry_id := "e-2", date := ⟨2025, 6, 11⟩, amount := 3, category := some "Transportation",
    currency := none, note := none, timestamp := 12, created_at := 12, updated_at := 12 }

def wEntriesStore : Store := { wBase with spendEntries := .good [wEntry, wEntry2] }

theorem update_entry_frame_witness :
    (updateSpendEntry wEntriesStore "e-2" 9 none none none).1 =
      some { (readEntriesList wEntriesStore).getD 1 default with
               amount := 9
               category := some (jsStringOr none "Uncategorized")
               currency := none
               note := none
               updated_at := wEntriesStore.now } ∧
    (updateSpendEntry wEntriesStore "e-2" 9 none none none).2.spendEntries =
      Blob.good ((readEntriesList wEntriesStore).set 1
        { (readEntriesList wEntriesStore).getD 1 default with
            amount := 9
            category := some (jsStringOr none "Uncategorized")
            currency := none
            note := none
            updated_at := wEntriesStore.now }) :=
  ⟨(update_entry_frame wEntriesStore "e-2" 9 none none none 1 (by decide)).1,
   (update_entry_frame wEntriesStore "e-2" 9 none none none 1 (by decide)).2.1⟩

theorem free_window_boundary_witness :
    canViewDate ⟨2025, 6, 12⟩ (getDefaultSubscription 0) (3 : Int) ⟨2025, 6, 15⟩ 0 = true ∧
    canViewDate ⟨2025, 6, 11⟩ (getDefaultSubscription 0) (3 : Int) ⟨2025, 6, 15⟩ 0 = false :=
  free_window_boundary (getDefaultSubscription 0) 0 3 ⟨2025, 6, 15⟩ ⟨2025, 6, 12⟩
    ⟨2025, 6, 11⟩ (by decide) (by decide) (by decide)

/-! ### Claim C10 -/

theorem readEntriesList_good (s : Store) (l : List SpendEntry)
    (hm : s.migratedV2 = true) (he : s.spendEntries = Blob.good l) :
    readEntriesList s = l := by
  unfold readEntriesList
  rw [migrate_of_migrated hm, he]
  rfl

/-- One `addSpendEntry` appends exactly one entry to what a read observes. -/
theorem readEntriesList_addSpend (s : Store) (d : Date) (a : Rat)
    (c n cur : Option String) :
    readEntriesList (addSpendEntry s d a c n cur).2 =
      readEntriesList s ++ [(addSpendEntry s d a c n cur).1] := by
  refine readEntriesList_good _ _ ?_ ?_
  · show (migrateFromV1 s).migratedV2 = true
    exact migrate_migratedV2 s
  · rfl

/-- `updateRecurringEntry` touches only the recurring-entry blob. -/
theorem updateRec_frame (s : Store) (id : String) (p : RecurringPatch) :
    (updateRecurringEntry s id p).2.migratedV2 = s.migratedV2 ∧
    (updateRecurringEntry s id p).2.legacyLogs = s.legacyLogs ∧
    (updateRecurringEntry s id p).2.spendEntries = s.spendEntries ∧
    (updateRecurringEntry s id p).2.appSettings = s.appSettings ∧
    (updateRecurringEntry s id p).2.subscription = s.subscription ∧
    (updateRecurringEntry s id p).2.lastRecurringCheck = s.lastRecurringCheck ∧
    (updateRecurringEntry s id p).2.todayD = s.todayD ∧
    (updateRecurringEntry s id p).2.now = s.now ∧
    (updateRecurringEntry s id p).2.nextId = s.nextId := by
  simp only [updateRecurringEntry]
  split <;> exact ⟨rfl, rfl, rfl, rfl, rfl, rfl, rfl, rfl, rfl⟩

theorem readEntriesList_updateRec (s : Store) (id : String) (p : RecurringPatch) :
    readEntriesList (updateRecurringEntry s id p).2 = readEntriesList s := by
  have h := updateRec_frame s id p
  exact readEntriesList_congr h.1 h.2.1 h.2.2.1

/-- Each iteration of the catch-up loop appends one entry and counts it
once, so the count delta equals the growth of the read entry list. -/
theorem genLoop_count (r : RecurringEntry) (today : Date) :
    ∀ (fuel : Nat) (s : Store) (next : Date) (c : Nat),
      (readEntriesList (genLoop r today fuel s next c).1).length + c =
        (readEntriesList s).length + (genLoop r today fuel s next c).2 := by
  intro fuel
  induction fuel with
  | zero => intro s next c; rfl
  | succ fuel ih =>
    intro s next c
    unfold genLoop
    split
    · split
      · rfl
      · have hrec := ih
          ((updateRecurringEntry
              ((addSpendEntry s next r.amount r.category
                  (some (recNote r.note)) r.currency).2)
              r.id { last_generated_date := some (some next) }).2)
          (getNextOccurrenceDate next r.frequency) (c + 1)
        have h1 := readEntriesList_updateRec
          ((addSpendEntry s next r.amount r.category
              (some (recNote r.note)) r.currency).2)
          r.id { last_generated_date := some (some next) }
        have h2 := readEntriesList_addSpend s next r.amount r.category
          (some (recNote r.note)) r.currency
        rw [h1, h2] at hrec
        simp only [List.length_append, List.length_cons, List.length_nil] at hrec
        omega
    · rfl

theorem genAll_count (today : Date) :
    ∀ (rs : List RecurringEntry) (s : Store) (c : Nat),
      (readEntriesList (genAll today rs s c).1).length + c =
        (readEntriesList s).length + (genAll today rs s c).2 := by
  intro rs
  induction rs with
  | nil => intro s c; rfl
  | cons r rs ih =>
    intro s c
    unfold genAll
    split
    · exact ih s c
    · split
      · exact ih s c
      · split
        · exact ih s c
        · have hloop := genLoop_count r today (genFuel today) s (firstCandidate r) c
          have hrec := ih (genLoop r today (genFuel today) s (firstCandidate r) c).1
            (genLoop r today (genFuel today) s (firstCandidate r) c).2
          omega

/-- Claim C10: the number returned by `generateRecurringEntriesForToday`
equals exactly the number of entries added to the collection during the
call — after any call, the entry collection as observed by a read has grown
by precisely the returned count. -/
theorem generate_count_matches_growth (s : Store) :
    (readEntriesList (generateRecurringEntriesForToday s).1).length =
      (readEntriesList s).length + (generateRecurringEntriesForToday s).2 := by
  unfold generateRecurringEntriesForToday
  split
  · simp
  · have h := genAll_count s.todayD (getRecurringList s) s 0
    have hcongr : readEntriesList
        { (genAll s.todayD (getRecurringList s) s 0).1 with
            lastRecurringCheck := some s.todayD } =
        readEntriesList (genAll s.todayD (getRecurringList s) s 0).1 :=
      readEntriesList_congr rfl rfl rfl
    rw [hcongr]
    omega

/-! ### Claim C7 -/

/-- The spec invariant on one template: `end_date` null or after
`start_date`, and `last_generated_date` null or at/after `start_date`. -/
def recInvB (t : RecurringEntry) : Bool :=
  (match t.end_date with
   | none => true
   | some e => decide (dateLt t.start_date e)) &&
  (match t.last_generated_date with
   | none => true
   | some g => decide (dateLe t.start_date g))

/-- The fields of a template the generation engine never changes. -/
def recCore (t : RecurringEntry) : String × Date × Option Date :=
  (t.id, t.start_date, t.end_date)

theorem findIdxO_spec {α : Type} (p : α → Bool) (dflt : α) :
    ∀ (l : List α) (i : Nat), findIdxO p l = some i →
      i < l.length ∧ p (l.getD i dflt) = true := by
  intro l
  induction l with
  | nil => intro i h; simp [findIdxO] at h
  | cons x xs ih =>
    intro i h
    unfold findIdxO at h
    split at h
    · next hp =>
      cases h
      exact ⟨by simp, hp⟩
    · next hp =>
      obtain ⟨j, hj, hji⟩ := Option.map_eq_some'.mp h
      obtain ⟨h1, h2⟩ := ih j hj
      subst hji
      exact ⟨by simpa using h1, h2⟩

theorem getD_map {α β : Type} (f : α → β) :
    ∀ (l : List α) (i : Nat) (d : α), (l.map f).getD i (f d) = f (l.getD i d) := by
  intro l
  induction l with
  | nil => intro i d; rfl
  | cons x xs ih =>
    intro i d
    cases i with
    | zero => rfl
    | succ i => exact ih i d

theorem map_set_eq {α β : Type} (f : α → β) :
    ∀ (l : List α) (i : Nat) (a : α) (dflt : α),
      f a = f (l.getD i dflt) → (l.set i a).map f = l.map f := by
  intro l
  induction l with
  | nil => intro i a d h; rfl
  | cons x xs ih =>
    intro i a d h
    cases i with
    | zero =>
      simp only [List.set, List.map]
      rw [show (x :: xs).getD 0 d = x from rfl] at h
      rw [h]
    | succ i =>
      simp only [List.set, List.map]
      rw [ih i a d h]

/-- In a duplicate-free list, positions holding the same value coincide. -/
theorem nodup_getD_inj {α : Type} :
    ∀ (l : List α), l.Nodup → ∀ (i j : Nat) (d1 d2 : α), i < l.length →
      j < l.length → l.getD i d1 = l.getD j d2 → i = j := by
  intro l
  induction l with
  | nil => intro _ i j d1 d2 hi _ _; simp at hi
  | cons x xs ih =>
    intro hnd i j d1 d2 hi hj heq
    obtain ⟨hx, hxs⟩ := List.pairwise_cons.mp hnd
    cases i with
    | zero =>
      cases j with
      | zero => rfl
      | succ j =>
        exfalso
        have hmem : xs.getD j d2 ∈ xs := by
          rw [List.getD_eq_getElem xs d2 (by simpa using hj)]
          exact List.getElem_mem _
        have hxe : x = xs.getD j d2 := heq
        exact hx _ hmem hxe
    | succ i =>
      cases j with
      | zero =>
        exfalso
        have hmem : xs.getD i d1 ∈ xs := by
          rw [List.getD_eq_getElem xs d1 (by simpa using hi)]
          exact List.getElem_mem _
        have hxe : xs.getD i d1 = x := heq
        exact hx _ hmem hxe.symm
      | succ j =>
        have := ih hxs i j d1 d2 (by simpa using hi) (by simpa using hj) heq
        omega

/-- When ids are unique, the slot found by `findIdxO` on a list that agrees
with `recs` on cores carries the same immutable core as `r`. -/
theorem findIdxO_core {l recs : List RecurringEntry} {r : RecurringEntry} {i : Nat}
    (hmap : l.map recCore = recs.map recCore)
    (hnodup : (recs.map (fun t => t.id)).Nodup)
    (hr : r ∈ recs)
    (hfind : findIdxO (fun e => decide (e.id = r.id)) l = some i) :
    i < l.length ∧ recCore (l.getD i default) = recCore r := by
  obtain ⟨hlen, hp⟩ := findIdxO_spec _ default l i hfind
  have hid : (l.getD i default).id = r.id := of_decide_eq_true hp
  have hlength : l.length = recs.length := by
    have := congrArg List.length hmap
    simpa using this
  have hi2 : i < recs.length := hlength ▸ hlen
  have hcore_i : recCore (l.getD i default) = recCore (recs.getD i default) := by
    have := congrArg (fun t => t.getD i (recCore default)) hmap
    simpa [getD_map] using this
  obtain ⟨j, hj, hjr⟩ := List.getElem_of_mem hr
  have hidij : recs[i].id = recs[j].id := by
    have hids := congrArg (fun t => t.1) hcore_i
    simp only [recCore] at hids
    have h1 : (recs.getD i default).id = r.id := by
      rw [← hids]; exact hid
    rw [List.getD_eq_getElem recs default hi2] at h1
    rw [hjr, h1]
  have hij : i = j := by
    refine nodup_getD_inj _ hnodup i j (default : RecurringEntry).id
      (default : RecurringEntry).id (by simpa using hi2) (by simpa using hj) ?_
    rw [getD_map, getD_map]
    rw [List.getD_eq_getElem recs default hi2, List.getD_eq_getElem recs default hj]
    exact hidij
  subst hij
  refine ⟨hlen, ?_⟩
  rw [hcore_i, List.getD_eq_getElem recs default hi2]
  exact congrArg recCore hjr

theorem addSpend_recurring (s : Store) (d : Date) (a : Rat) (c n cur : Option String) :
    (addSpendEntry s d a c n cur).2.recurringEntries = s.recurringEntries := by
  show (migrateFromV1 s).recurringEntries = s.recurringEntries
  exact (migrate_frame s).2.2.2.1

theorem updateRec_none {s : Store} {id : String} {p : RecurringPatch}
    (h : findIdxO (fun e => decide (e.id = id)) (getRecurringList s) = none) :
    (updateRecurringEntry s id p).2 = s := by
  simp only [updateRecurringEntry, h]

theorem updateRec_some {s : Store} {id : String} {p : RecurringPatch} {i : Nat}
    (h : findIdxO (fun e => decide (e.id = id)) (getRecurringList s) = some i) :
    getRecurringList (updateRecurringEntry s id p).2 =
      (getRecurringList s).set i
        (applyPatch ((getRecurringList s).getD i default) p s.now) := by
  simp only [updateRecurringEntry, h]
  rfl

/-- The only patch the engine applies does not touch the core fields. -/
theorem applyPatch_lg_core (t : RecurringEntry) (next : Date) (now : Int) :
    recCore (applyPatch t { last_generated_date := some (some next) } now) = recCore t := rfl

/-- The catch-up loop for one template keeps the whole-store invariant and
the template cores, provided the cursor never precedes the template's start
date. -/
theorem genLoop_inv (r : RecurringEntry) (today : Date)
    (recs : List RecurringEntry)
    (hnodup : (recs.map (fun t => t.id)).Nodup) (hr : r ∈ recs) :
    ∀ (fuel : Nat) (s : Store) (next : Date) (c : Nat),
      (getRecurringList s).all recInvB = true →
      (getRecurringList s).map recCore = recs.map recCore →
      dateLe r.start_date next →
      (getRecurringList (genLoop r today fuel s next c).1).all recInvB = true ∧
      (getRecurringList (genLoop r today fuel s next c).1).map recCore =
        recs.map recCore := by
  intro fuel
  induction fuel with
  | zero => intro s next c h1 h2 _; exact ⟨h1, h2⟩
  | succ fuel ih =>
    intro s next c h1 h2 h3
    unfold genLoop
    split
    · split
      · exact ⟨h1, h2⟩
      · have hnext' : dateLe r.start_date (getNextOccurrenceDate next r.frequency) :=
          dateLe_trans h3 (getNext_ge next r.frequency)
        have haddrec : getRecurringList
            (addSpendEntry s next r.amount r.category (some (recNote r.note)) r.currency).2 =
            getRecurringList s := by
          unfold getRecurringList
          rw [addSpend_recurring]
        cases hfind : findIdxO (fun e => decide (e.id = r.id))
            (getRecurringList (addSpendEntry s next r.amount r.category
              (some (recNote r.note)) r.currency).2) with
        | none =>
          rw [updateRec_none hfind]
          exact ih _ _ _ (by rw [haddrec]; exact h1) (by rw [haddrec]; exact h2) hnext'
        | some i =>
          have hlist := updateRec_some (p := { last_generated_date := some (some next) }) hfind
          rw [haddrec] at hfind
          obtain ⟨hlen, hcore⟩ := findIdxO_core h2 hnodup hr hfind
          have hsets : getRecurringList (updateRecurringEntry
              (addSpendEntry s next r.amount r.category
                (some (recNote r.note)) r.currency).2
              r.id { last_generated_date := some (some next) }).2 =
              (getRecurringList s).set i
                (applyPatch ((getRecurringList s).getD i default)
                  { last_generated_date := some (some next) }
                  (addSpendEntry s next r.amount r.category
                    (some (recNote r.note)) r.currency).2.now) := by
            rw [hlist, haddrec]
          refine ih _ _ _ ?_ ?_ hnext'
          · rw [hsets]
            rw [List.all_eq_true]
            intro x hx
            rcases List.mem_or_eq_of_mem_set hx with hxl | hxu
            · exact List.all_eq_true.mp h1 x hxl
            · subst hxu
              have hold : recInvB ((getRecurringList s).getD i default) = true := by
                refine List.all_eq_true.mp h1 _ ?_
                rw [List.getD_eq_getElem _ default hlen]
                exact List.getElem_mem hlen
              have hstart : ((getRecurringList s).getD i default).start_date =
                  r.start_date := by
                have := congrArg (fun t => t.2.1) hcore
                simpa [recCore] using this
              unfold recInvB at hold ⊢
              rw [Bool.and_eq_true] at hold ⊢
              refine ⟨hold.1, ?_⟩
              show (match (some next : Option Date) with
                    | none => true
                    | some g => decide (dateLe (applyPatch ((getRecurringList s).getD i default)
                        { last_generated_date := some (some next) }
                        (addSpendEntry s next r.amount r.category
                          (some (recNote r.note)) r.currency).2.now).start_date g)) = true
              show decide (dateLe ((getRecurringList s).getD i default).start_date next) = true
              rw [hstart]
              exact decide_eq_true h3
          · rw [hsets]
            rw [map_set_eq recCore _ i _ default (applyPatch_lg_core _ _ _), h2]
    · exact ⟨h1, h2⟩

/-- The per-template loop over all templates keeps the invariant. -/
theorem genAll_inv (today : Date) (recs : List RecurringEntry)
    (hnodup : (recs.map (fun t => t.id)).Nodup)
    (hrecsinv : recs.all recInvB = true) :
    ∀ (rs : List RecurringEntry) (s : Store) (c : Nat),
      (∀ x ∈ rs, x ∈ recs) →
      (getRecurringList s).all recInvB = true →
      (getRecurringList s).map recCore = recs.map recCore →
      (getRecurringList (genAll today rs s c).1).all recInvB = true ∧
      (getRecurringList (genAll today rs s c).1).map recCore = recs.map recCore := by
  intro rs
  induction rs with
  | nil => intro s c _ h1 h2; exact ⟨h1, h2⟩
  | cons r rs ih =>
    intro s c hsub h1 h2
    have hsub' : ∀ x ∈ rs, x ∈ recs := fun x hx => hsub x (List.mem_cons_of_mem r hx)
    unfold genAll
    split
    · exact ih s c hsub' h1 h2
    · split
      · exact ih s c hsub' h1 h2
      · split
        · exact ih s c hsub' h1 h2
        · have hr : r ∈ recs := hsub r (List.mem_cons_self r rs)
          have hstart : dateLe r.start_date (firstCandidate r) := by
            unfold firstCandidate
            cases hlg : r.last_generated_date with
            | none => exact dateLe_refl _
            | some lg =>
              have hinvr : recInvB r = true := List.all_eq_true.mp hrecsinv r hr
              unfold recInvB at hinvr
              rw [Bool.and_eq_true, hlg] at hinvr
              have hle : dateLe r.start_date lg := of_decide_eq_true hinvr.2
              exact dateLe_trans hle (getNext_ge lg r.frequency)
          have hloop := genLoop_inv r today recs hnodup hr (genFuel today) s
            (firstCandidate r) c h1 h2 hstart
          exact ih _ _ hsub' hloop.1 hloop.2

/-- Claim C7, amended.  The per-occurrence updates performed by
`generateRecurringEntriesForToday` preserve the invariant (for a store whose
template ids are distinct, as created), and `addRecurringEntry` preserves it
exactly when its `endDate` argument is null or after its `startDate` — the
function itself performs no validation, and `updateRecurringEntry` applies
arbitrary partial updates without validation, so either of those two can
store a violating template (see the counterexample). -/
theorem recurring_invariant_amended (s : Store)
    (hinv : (getRecurringList s).all recInvB = true)
    (hnodup : ((getRecurringList s).map (fun t => t.id)).Nodup) :
    (∀ (amount : Rat) (freq : Frequency) (startDate : Date)
       (cat cur note : Option String) (endDate : Option Date),
       (endDate = none ∨ ∃ e, endDate = some e ∧ dateLt startDate e) →
       (getRecurringList
         (addRecurringEntry s amount freq startDate cat cur note endDate).2).all
           recInvB = true) ∧
    (getRecurringList (generateRecurringEntriesForToday s).1).all recInvB = true := by
  constructor
  · intro amount freq startDate cat cur note endDate hend
    have hlist : getRecurringList
        (addRecurringEntry s amount freq startDate cat cur note endDate).2 =
        getRecurringList s ++
          [(addRecurringEntry s amount freq startDate cat cur note endDate).1] := rfl
    rw [hlist, List.all_append, hinv, Bool.true_and, List.all_cons, List.all_nil,
      Bool.and_true]
    show recInvB
      { id := uuidOf s.nextId, amount := amount,
        category := some (jsStringOr cat "Uncategorized"), currency := cur,
        note := note, frequency := freq, start_date := startDate,
        end_date := endDate, last_generated_date := none, is_active := true,
        created_at := s.now, updated_at := s.now } = true
    unfold recInvB
    rcases hend with h | ⟨e, he, hlt⟩
    · rw [h]
      rfl
    · rw [he]
      simp only [Bool.and_eq_true]
      constructor
      · exact decide_eq_true hlt
      · trivial
  · unfold generateRecurringEntriesForToday
    split
    · exact hinv
    · have hgen := genAll_inv s.todayD (getRecurringList s) hnodup hinv
        (getRecurringList s) s 0 (fun x hx => hx) hinv rfl
      exact hgen.1

def cxTemplate : RecurringEntry :=
  { id := "rec-1", amount := 20, category := some "Rent", currency := none,
    note := none, frequency := .monthly, start_date := ⟨2025, 1, 10⟩,
    end_date := none, last_generated_date := none, is_active := true,
    created_at := 0, updated_at := 0 }

def cxRecStore : Store := { wBase with recurringEntries := .good [cxTemplate] }

/-- Counterexample to claim C7 as stated: starting from a store holding one
template that satisfies the invariant, `updateRecurringEntry` accepts a
patch setting `end_date` equal to `start_date` and stores the result, which
violates `end_date > start_date`. -/
theorem update_recurring_breaks_invariant :
    (getRecurringList cxRecStore).all recInvB = true ∧
    (getRecurringList (updateRecurringEntry cxRecStore "rec-1"
        { end_date := some (some ⟨2025, 1, 10⟩) }).2).all recInvB = false := by
  constructor
  · decide
  · decide

theorem recurring_invariant_amended_witness :
    (getRecurringList
      (addRecurringEntry cxRecStore 9 .weekly ⟨2025, 3, 1⟩ none none none
        (some ⟨2025, 4, 1⟩)).2).all recInvB = true ∧
    (getRecurringList (generateRecurringEntriesForToday cxRecStore).1).all
      recInvB = true :=
  ⟨(recurring_invariant_amended cxRecStore (by decide) (by decide)).1
      9 .weekly ⟨2025, 3, 1⟩ none none none (some ⟨2025, 4, 1⟩)
      (Or.inr ⟨⟨2025, 4, 1⟩, rfl, by decide⟩),
   (recurring_invariant_amended cxRecStore (by decide) (by decide)).2⟩

/-! ### Claim C1 -/

theorem addSpend_shift (s : Store) (d : Date) (a : Rat) (c n cur : Option String) :
    addSpendEntry s d a c n cur = addSpendEntry (migrateFromV1 s) d a c n cur := by
  unfold addSpendEntry
  rw [migrate_idem]

/-- `addSpendEntry` on an already-migrated store, in closed form. -/
theorem addSpend_migrated {s : Store} (hm : s.migratedV2 = true) (d : Date) (a : Rat)
    (c n cur : Option String) :
    addSpendEntry s d a c n cur =
      ({ entry_id := uuidOf s.nextId, date := d, amount := a,
         category := some (jsStringOr c "Uncategorized"), currency := cur, note := n,
         timestamp := s.now, created_at := s.now, updated_at := s.now },
       { s with
           spendEntries := Blob.good (s.spendEntries.toList ++
             [{ entry_id := uuidOf s.nextId, date := d, amount := a,
                category := some (jsStringOr c "Uncategorized"), currency := cur,
                note := n, timestamp := s.now, created_at := s.now,
                updated_at := s.now }]),
           nextId := s.nextId + 1 }) := by
  unfold addSpendEntry saveAllEntries
  rw [migrate_of_migrated hm]

/-- `updateRecurringEntry` on a store holding exactly one template with the
requested id, in closed form. -/
theorem updateRec_single {s : Store} {t : RecurringEntry} {rid : String}
    (he : s.recurringEntries = Blob.good [t]) (hid : t.id = rid) (p : RecurringPatch) :
    (updateRecurringEntry s rid p).2 =
      { s with recurringEntries := Blob.good [applyPatch t p s.now] } := by
  have hlist : getRecurringList s = [t] := by
    unfold getRecurringList
    rw [he]
    rfl
  have hfind : findIdxO (fun e => decide (e.id = rid)) [t] = some 0 := by
    simp [findIdxO, hid]
  simp only [updateRecurringEntry, hlist, hfind]
  rfl

theorem genLoop_stop (r : RecurringEntry) (today : Date) (fuel : Nat) (s : Store)
    (next : Date) (c : Nat) (h : ¬ dateLe next today) :
    genLoop r today fuel s next c = (s, c) := by
  cases fuel <;> simp [genLoop, h]

theorem genLoop_succ (r : RecurringEntry) (today : Date) (fuel : Nat) (s : Store)
    (next : Date) (c : Nat) (h1 : dateLe next today)
    (h2 : pastEnd r.end_date next = false) :
    genLoop r today (fuel + 1) s next c =
      genLoop r today fuel
        ((updateRecurringEntry
            ((addSpendEntry s next r.amount r.category
                (some (recNote r.note)) r.currency).2)
            r.id { last_generated_date := some (some next) }).2)
        (getNextOccurrenceDate next r.frequency) (c + 1) := by
  conv_lhs => rw [genLoop]
  rw [if_pos h1, if_neg (by simp [h2])]

theorem dateLt_irrefl (a : Date) : ¬ dateLt a a := by
  unfold dateLt; omega

/-- The spend entry materialized for one occurrence of a template. -/
def genEntry (r : RecurringEntry) (nid : Nat) (now : Int) (d : Date) : SpendEntry :=
  { entry_id := uuidOf nid, date := d, amount := r.amount,
    category := some (jsStringOr r.category "Uncategorized"), currency := r.currency,
    note := some (recNote r.note), timestamp := now, created_at := now,
    updated_at := now }

/-- The entries materialized for a chain of occurrence dates, with
consecutive fresh ids. -/
def genEntries (r : RecurringEntry) (nid : Nat) (now : Int) : List Date → List SpendEntry
  | [] => []
  | d :: ds => genEntry r nid now d :: genEntries r (nid + 1) now ds

def lastOf (next : Date) : List Date → Date
  | [] => next
  | d :: ds => lastOf d ds

/-- `next :: ds` is exactly the run of the catch-up loop: consecutive
period advances, every member at most today, and the advance past the last
member falling after today. -/
def chainOk (f : Frequency) (today : Date) : Date → List Date → Prop
  | next, [] => dateLe next today ∧ dateLt today (getNextOccurrenceDate next f)
  | next, d :: ds => dateLe next today ∧ getNextOccurrenceDate next f = d ∧
      chainOk f today d ds

/-- One loop iteration on an already-migrated store, in closed form: one
entry appended, the fresh-id counter bumped, the (single) template's
`last_generated_date` advanced. -/
theorem genStep_closed {S : Store} {t r : RecurringEntry}
    (hm : S.migratedV2 = true)
    (hrec2 : S.recurringEntries = Blob.good [t]) (hid : t.id = r.id) (d : Date) :
    (updateRecurringEntry
        ((addSpendEntry S d r.amount r.category
            (some (recNote r.note)) r.currency).2)
        r.id { last_generated_date := some (some d) }).2 =
      { S with
          spendEntries := Blob.good (S.spendEntries.toList ++ [genEntry r S.nextId S.now d]),
          nextId := S.nextId + 1,
          recurringEntries := Blob.good
            [{ t with last_generated_date := some d, updated_at := S.now }] } := by
  have hadd := addSpend_migrated hm d r.amount r.category (some (recNote r.note)) r.currency
  rw [congrArg Prod.snd hadd]
  rw [updateRec_single (t := t) (by exact hrec2) hid
    { last_generated_date := some (some d) }]
  rfl

theorem genLoop_shift (r : RecurringEntry) (today : Date) (fuel : Nat) (s : Store)
    (next : Date) (c : Nat) (h1 : dateLe next today)
    (h2 : pastEnd r.end_date next = false) :
    genLoop r today (fuel + 1) s next c =
      genLoop r today (fuel + 1) (migrateFromV1 s) next c := by
  rw [genLoop_succ r today fuel s next c h1 h2,
    genLoop_succ r today fuel (migrateFromV1 s) next c h1 h2]
  rw [addSpend_shift]

/-- Closed form of the whole catch-up run of one open-ended template over
an explicit chain of occurrence dates. -/
theorem genLoop_chain (r : RecurringEntry) (today : Date) (hre : r.end_date = none) :
    ∀ (ds : List Date) (next : Date) (fuel : Nat) (S : Store) (t : RecurringEntry)
      (c : Nat),
      S.migratedV2 = true →
      S.recurringEntries = Blob.good [t] →
      t.id = r.id →
      chainOk r.frequency today next ds →
      ds.length + 1 ≤ fuel →
      genLoop r today fuel S next c =
        ({ S with
            spendEntries := Blob.good (S.spendEntries.toList ++
              genEntries r S.nextId S.now (next :: ds)),
            nextId := S.nextId + (next :: ds).length,
            recurringEntries := Blob.good
              [{ t with
                   last_generated_date := some (lastOf next ds)
                   updated_at := S.now }] },
         c + (next :: ds).length) := by
  intro ds
  induction ds with
  | nil =>
    intro next fuel S t c hm hrec2 hid hchain hfuel
    obtain ⟨hle, hstop⟩ := hchain
    cases fuel with
    | zero => omega
    | succ fu =>
      rw [genLoop_succ r today fu S next c hle (by unfold pastEnd; rw [hre])]
      rw [genStep_closed hm hrec2 hid next]
      rw [genLoop_stop _ _ _ _ _ _ (not_dateLe_iff.mpr hstop)]
      rfl
  | cons d ds ih =>
    intro next fuel S t c hm hrec2 hid hchain hfuel
    obtain ⟨hle, hnext, hchain2⟩ := hchain
    cases fuel with
    | zero =>
      simp only [List.length_cons] at hfuel
      omega
    | succ fu =>
      rw [genLoop_succ r today fu S next c hle (by unfold pastEnd; rw [hre])]
      rw [genStep_closed hm hrec2 hid next]
      rw [hnext]
      have hih := ih d fu
        { S with
            spendEntries := Blob.good (S.spendEntries.toList ++
              [genEntry r S.nextId S.now next]),
            nextId := S.nextId + 1,
            recurringEntries := Blob.good
              [{ t with last_generated_date := some next, updated_at := S.now }] }
        { t with last_generated_date := some next, updated_at := S.now }
        (c + 1) hm rfl hid hchain2
        (by simp only [List.length_cons] at hfuel ⊢; omega)
      rw [hih]
      dsimp only
      simp only [Blob.toList, genEntries, List.append_assoc, List.singleton_append,
        List.length_cons, Prod.mk.injEq, Store.mk.injEq, lastOf, true_and, and_true]
      omega

/-- Claim C1: a first run of `generateRecurringEntriesForToday` (daily
marker not yet at today) on a store holding exactly one active, open-ended
monthly template with `last_generated_date` null and `start_date` exactly
three calendar months before today — three monthly advances of the host
date library landing on today — adds exactly the four monthly occurrences
start, start+1mo, start+2mo, today, each exactly once and in strictly
increasing date order, each as a `SpendEntry` carrying the template's
amount, category and currency and the note "[Recurring] note" (or
"[Recurring]" when the template's note is null), and afterwards the
template's `last_generated_date` equals the last occurrence produced
(today).  The hypotheses `hc` and `hnote` exclude the JavaScript-falsy
empty-string category and note, for which the code substitutes defaults. -/
theorem recurring_monthly_catchup (s : Store) (r : RecurringEntry)
    (start m1 m2 : Date) (c : String)
    (htoday : ¬ s.lastRecurringCheck = some s.todayD)
    (hrec : s.recurringEntries = Blob.good [r])
    (hfreq : r.frequency = .monthly) (hact : r.is_active = true)
    (hend : r.end_date = none) (hlg : r.last_generated_date = none)
    (hstartd : r.start_date = start)
    (h1 : getNextOccurrenceDate start .monthly = m1)
    (h2 : getNextOccurrenceDate m1 .monthly = m2)
    (h3 : getNextOccurrenceDate m2 .monthly = s.todayD)
    (hcat : r.category = some c) (hc : ¬ c = "")
    (hnote : ¬ r.note = some "") :
    (generateRecurringEntriesForToday s).2 = 4 ∧
    dateLt start m1 ∧ dateLt m1 m2 ∧ dateLt m2 s.todayD ∧
    readEntriesList (generateRecurringEntriesForToday s).1 =
      readEntriesList s ++
        [{ entry_id := uuidOf s.nextId, date := start, amount := r.amount,
           category := some c, currency := r.currency,
           note := some (match r.note with
                         | none => "[Recurring]"
                         | some nt => "[Recurring] " ++ nt),
           timestamp := s.now, created_at := s.now, updated_at := s.now },
         { entry_id := uuidOf (s.nextId + 1), date := m1, amount := r.amount,
           category := some c, currency := r.currency,
           note := some (match r.note with
                         | none => "[Recurring]"
                         | some nt => "[Recurring] " ++ nt),
           timestamp := s.now, created_at := s.now, updated_at := s.now },
         { entry_id := uuidOf (s.nextId + 2), date := m2, amount := r.amount,
           category := some c, currency := r.currency,
           note := some (match r.note with
                         | none => "[Recurring]"
                         | some nt => "[Recurring] " ++ nt),
           timestamp := s.now, created_at := s.now, updated_at := s.now },
         { entry_id := uuidOf (s.nextId + 3), date := s.todayD, amount := r.amount,
           category := some c, currency := r.currency,
           note := some (match r.note with
                         | none => "[Recurring]"
                         | some nt => "[Recurring] " ++ nt),
           timestamp := s.now, created_at := s.now, updated_at := s.now }] ∧
    getRecurringList (generateRecurringEntriesForToday s).1 =
      [{ r with
           last_generated_date := some s.todayD
           updated_at := s.now }] := by
  obtain ⟨hMleg, hMapp, hMsub, hMrec0, hMlast, hMtoday, hMnow, hMnid⟩ := migrate_frame s
  have hMm := migrate_migratedV2 s
  have hMrec : (migrateFromV1 s).recurringEntries = Blob.good [r] := by
    rw [hMrec0, hrec]
  have hlt1 : dateLt start m1 := h1 ▸ getNext_gt start .monthly
  have hlt2 : dateLt m1 m2 := h2 ▸ getNext_gt m1 .monthly
  have hlt3 : dateLt m2 s.todayD := h3 ▸ getNext_gt m2 .monthly
  have hle0 : dateLe start s.todayD :=
    dateLe_of_lt (dateLt_trans hlt1 (dateLt_trans hlt2 hlt3))
  have hle1 : dateLe m1 s.todayD := dateLe_of_lt (dateLt_trans hlt2 hlt3)
  have hle2 : dateLe m2 s.todayD := dateLe_of_lt hlt3
  have hchain : chainOk r.frequency s.todayD start [m1, m2, s.todayD] := by
    rw [hfreq]
    exact ⟨hle0, h1, hle1, h2, hle2, h3, dateLe_refl _,
      getNext_gt s.todayD .monthly⟩
  have hreclist : getRecurringList s = [r] := by
    unfold getRecurringList
    rw [hrec]
    rfl
  have hfc : firstCandidate r = start := by
    unfold firstCandidate
    rw [hlg]
    exact hstartd
  have hga : genAll s.todayD [r] s 0 =
      genLoop r s.todayD (genFuel s.todayD) s start 0 := by
    unfold genAll
    rw [if_neg (by rw [hact]; simp)]
    rw [if_neg (by unfold endedBefore; rw [hend]; simp)]
    rw [if_neg (by
      simp only [decide_eq_true_eq]
      intro hcon
      rw [hstartd] at hcon
      exact dateLt_irrefl s.todayD (dateLt_of_lt_of_le hcon hle0))]
    rw [hfc]
    rfl
  obtain ⟨F, hF⟩ : ∃ F, genFuel s.todayD = F + 1 :=
    ⟨genFuel s.todayD - 1, by unfold genFuel; omega⟩
  have hshift : genLoop r s.todayD (genFuel s.todayD) s start 0 =
      genLoop r s.todayD (genFuel s.todayD) (migrateFromV1 s) start 0 := by
    rw [hF]
    exact genLoop_shift r s.todayD F s start 0 hle0 (by unfold pastEnd; rw [hend])
  have hfuel4 : ([m1, m2, s.todayD] : List Date).length + 1 ≤ genFuel s.todayD := by
    simp only [List.length_cons, List.length_nil]
    unfold genFuel
    omega
  have hloop := genLoop_chain r s.todayD hend [m1, m2, s.todayD] start
    (genFuel s.todayD) (migrateFromV1 s) r 0 hMm hMrec rfl hchain hfuel4
  have hmain : generateRecurringEntriesForToday s =
      ({ migrateFromV1 s with
           spendEntries := Blob.good ((migrateFromV1 s).spendEntries.toList ++
             genEntries r (migrateFromV1 s).nextId (migrateFromV1 s).now
               [start, m1, m2, s.todayD]),
           nextId := (migrateFromV1 s).nextId + 4,
           recurringEntries := Blob.good
             [{ r with
                  last_generated_date := some s.todayD
                  updated_at := (migrateFromV1 s).now }],
           lastRecurringCheck := some s.todayD }, 4) := by
    unfold generateRecurringEntriesForToday
    rw [if_neg htoday, hreclist, hga, hshift, hloop]
    rfl
  have hfinm : (generateRecurringEntriesForToday s).1.migratedV2 = true := by
    rw [hmain]
    exact hMm
  have hE : (generateRecurringEntriesForToday s).1.spendEntries =
      Blob.good ((migrateFromV1 s).spendEntries.toList ++
        genEntries r (migrateFromV1 s).nextId (migrateFromV1 s).now
          [start, m1, m2, s.todayD]) := by
    rw [hmain]
  have hRead : readEntriesList (generateRecurringEntriesForToday s).1 =
      (migrateFromV1 s).spendEntries.toList ++
        genEntries r (migrateFromV1 s).nextId (migrateFromV1 s).now
          [start, m1, m2, s.todayD] :=
    readEntriesList_good _ _ hfinm hE
  have hcatEq : jsStringOr r.category "Uncategorized" = c := by
    rw [hcat]
    show (if c = "" then "Uncategorized" else c) = c
    rw [if_neg hc]
  have hnoteEq : recNote r.note = (match r.note with
      | none => "[Recurring]"
      | some nt => "[Recurring] " ++ nt) := by
    cases hn : r.note with
    | none => rfl
    | some nt =>
      have hnt : ¬ nt = "" := by
        intro hcon
        exact hnote (by rw [hn, hcon])
      show (if nt = "" then "[Recurring]" else "[Recurring] " ++ nt) =
        "[Recurring] " ++ nt
      rw [if_neg hnt]
  refine ⟨?_, hlt1, hlt2, hlt3, ?_, ?_⟩
  · rw [hmain]
  · rw [hRead]
    have hRs : readEntriesList s = (migrateFromV1 s).spendEntries.toList := rfl
    rw [hRs]
    simp only [genEntries, genEntry]
    rw [hMnid, hMnow, hcatEq, hnoteEq]
    try rfl
  · have hRec : (generateRecurringEntriesForToday s).1.recurringEntries =
        Blob.good [{ r with
          last_generated_date := some s.todayD
          updated_at := (migrateFromV1 s).now }] := by
      rw [hmain]
    unfold getRecurringList
    rw [hRec, hMnow]
    try rfl

def wRecTemplate : RecurringEntry :=
  { id := "rm-1", amount := 10, category := some "Rent", currency := some "USD",
    note := some "apartment", frequency := .monthly, start_date := ⟨2025, 3, 15⟩,
    end_date := none, last_generated_date := none, is_active := true,
    created_at := 0, updated_at := 0 }

def wGenStore : Store := { wBase with recurringEntries := .good [wRecTemplate] }

theorem recurring_monthly_catchup_witness :
    (generateRecurringEntriesForToday wGenStore).2 = 4 ∧
    dateLt ⟨2025, 3, 15⟩ ⟨2025, 4, 15⟩ ∧ dateLt ⟨2025, 4, 15⟩ ⟨2025, 5, 15⟩ ∧
    dateLt ⟨2025, 5, 15⟩ wGenStore.todayD ∧
    readEntriesList (generateRecurringEntriesForToday wGenStore).1 =
      readEntriesList wGenStore ++
        [{ entry_id := uuidOf wGenStore.nextId, date := ⟨2025, 3, 15⟩,
           amount := wRecTemplate.amount, category := some "Rent",
           currency := wRecTemplate.currency,
           note := some (match wRecTemplate.note with
                         | none => "[Recurring]"
                         | some nt => "[Recurring] " ++ nt),
           timestamp := wGenStore.now, created_at := wGenStore.now,
           updated_at := wGenStore.now },
         { entry_id := uuidOf (wGenStore.nextId + 1), date := ⟨2025, 4, 15⟩,
           amount := wRecTemplate.amount, category := some "Rent",
           currency := wRecTemplate.currency,
           note := some (match wRecTemplate.note with
                         | none => "[Recurring]"
                         | some nt => "[Recurring] " ++ nt),
           timestamp := wGenStore.now, created_at := wGenStore.now,
           updated_at := wGenStore.now },
         { entry_id := uuidOf (wGenStore.nextId + 2), date := ⟨2025, 5, 15⟩,
           amount := wRecTemplate.amount, category := some "Rent",
           currency := wRecTemplate.currency,
           note := some (match wRecTemplate.note with
                         | none => "[Recurring]"
                         | some nt => "[Recurring] " ++ nt),
           timestamp := wGenStore.now, created_at := wGenStore.now,
           updated_at := wGenStore.now },
         { entry_id := uuidOf (wGenStore.nextId + 3), date := wGenStore.todayD,
           amount := wRecTemplate.amount, category := some "Rent",
           currency := wRecTemplate.currency,
           note := some (match wRecTemplate.note with
                         | none => "[Recurring]"
                         | some nt => "[Recurring] " ++ nt),
           timestamp := wGenStore.now, created_at := wGenStore.now,
           updated_at := wGenStore.now }] ∧
    getRecurringList (generateRecurringEntriesForToday wGenStore).1 =
      [{ wRecTemplate with
           last_generated_date := some wGenStore.todayD
           updated_at := wGenStore.now }] :=
  recurring_monthly_catchup wGenStore wRecTemplate ⟨2025, 3, 15⟩ ⟨2025, 4, 15⟩
    ⟨2025, 5, 15⟩ "Rent" (by decide) rfl rfl rfl rfl rfl rfl
    (by simp [getNextOccurrenceDate, normalizeDay, normalizeMonth, dim, isLeap])
    (by simp [getNextOccurrenceDate, normalizeDay, normalizeMonth, dim, isLeap])
    (by simp [getNextOccurrenceDate, normalizeDay, normalizeMonth, dim, isLeap,
      wGenStore, wBase])
    rfl (by decide) (by decide)
